import Mathlib

/-!
# Verification of the phase-corrected power measurement and calibration core

This file embeds, in Lean 4, the core computations of the `rpi-power-monitor`
repository (file `rpi_power_monitor/power_monitor.py` and its configuration
`rpi_power_monitor/config.py`):

* the waveform reconstructor (`rebuild_wave`, `rebuild_waves`),
* the power/RMS calculator (`calculate_power`, `check_phasecal`),
* the calibration search engine (`find_phasecal`) and the `phase`-mode
  pre-flight orientation check of `__main__`,

and proves (or refutes) the specification claims about them.

Conventions of the embedding:

* Python machine floats are modelled by exact rationals (`ℚ`); `math.sqrt`
  is modelled by `Real.sqrt` on the real closure of the exact value.
* Python `int(x)` (truncation toward zero) is modelled by `pyInt`.
* Python `round(x, d)` (round-half-to-even) is modelled by `pyRound2` /
  `pyRound4` built on `roundHalfEven`.
* Exceptions are modelled by `Option`/`Except` result types: an
  `IndexError` or `ZeroDivisionError` escaping a calculator call is an
  explicit `CalcErr` value, and the `UnboundLocalError` reachable in
  `find_phasecal` is the `none` result of `findPhasecal`.
* The live re-sampling of the ADC during calibration is abstracted by an
  oracle `measure : ℕ → ℚ → ℚ` mapping (acquisition index, phase
  coefficient used) to the power factor computed from that acquisition.
-/

namespace PowerMonitor

/-- Python `int(x)`: truncation toward zero. -/
def pyInt (q : ℚ) : ℤ := if 0 ≤ q then ⌊q⌋ else ⌈q⌉

/-- Mean of a list of rationals, `sum / len` (0 for the empty list, as a
definitional artifact; every use below has a nonempty list). -/
def meanQ (l : List ℚ) : ℚ := l.sum / l.length

/-- Round-half-to-even to the nearest integer, as Python's builtin
`round` does. -/
def roundHalfEven (q : ℚ) : ℤ :=
  if q - ⌊q⌋ < 1/2 then ⌊q⌋
  else if 1/2 < q - ⌊q⌋ then ⌊q⌋ + 1
  else if ⌊q⌋ % 2 = 0 then ⌊q⌋ else ⌊q⌋ + 1

/-- Python `round(q, 2)`. -/
def pyRound2 (q : ℚ) : ℚ := (roundHalfEven (q * 100) : ℚ) / 100

/-- Python `round(q, 4)`. -/
def pyRound4 (q : ℚ) : ℚ := (roundHalfEven (q * 10000) : ℚ) / 10000

theorem pyInt_intCast (z : ℤ) : pyInt (z : ℚ) = z := by
  unfold pyInt
  split <;> simp

theorem roundHalfEven_intCast (z : ℤ) : roundHalfEven (z : ℚ) = z := by
  unfold roundHalfEven
  rw [Int.floor_intCast]
  rw [if_pos (by norm_num : (z : ℚ) - z < 1/2)]

theorem pyRound4_eval (q : ℚ) (z : ℤ) (h : q * 10000 = (z : ℚ)) :
    pyRound4 q = (z : ℚ) / 10000 := by
  unfold pyRound4
  rw [h, roundHalfEven_intCast]

theorem pyRound2_eval (q : ℚ) (z : ℤ) (h : q * 100 = (z : ℚ)) :
    pyRound2 q = (z : ℚ) / 100 := by
  unfold pyRound2
  rw [h, roundHalfEven_intCast]

theorem pyRound4_one : pyRound4 (1 : ℚ) = 1 := by
  rw [pyRound4_eval 1 10000 (by norm_num)]
  norm_num

theorem pyRound4_zero : pyRound4 (0 : ℚ) = 0 := by
  rw [pyRound4_eval 0 0 (by norm_num)]
  norm_num

/-- Truncate a rational to its Python-`int` value, as a rational. -/
def pyTrunc (q : ℚ) : ℚ := (pyInt q : ℚ)

theorem pyTrunc_pyTrunc (q : ℚ) : pyTrunc (pyTrunc q) = pyTrunc q := by
  unfold pyTrunc
  rw [pyInt_intCast]

/-! ## Waveform Reconstructor

Embedding of `rebuild_wave` (power_monitor.py lines 661-688) and
`rebuild_waves` (lines 414-480).  The loop body is

    new_point = previous_point + PHASECAL * (current_point - previous_point)
    wave.append(new_point)
    previous_point = current_point

so `previous_point` tracks the previous *raw* sample, not the previous
output sample.  An empty voltage list makes `v_wave[0]` raise an
`IndexError`, modelled by `none`. -/

/-- Loop of `rebuild_wave`: `prev` is the Python variable `previous_point`
(the previous raw sample). -/
def rebuildGo (c : ℚ) : ℚ → List ℚ → List ℚ
  | _, [] => []
  | prev, x :: xs => (prev + c * (x - prev)) :: rebuildGo c x xs

/-- Embedding of `rebuild_wave(samples, v_wave, PHASECAL)`, restricted to
the rebuilt voltage wave (the `new_v` entry of the returned dict; the
`ct` and `original_v` entries are passthroughs of the arguments). -/
def rebuild_wave (v_wave : List ℚ) (PHASECAL : ℚ) : Option (List ℚ) :=
  match v_wave with
  | [] => none
  | v0 :: rest => some (v0 :: rebuildGo PHASECAL v0 rest)

/-- Loop of `rebuild_waves`: builds the six per-channel waves in one pass
over the shared voltage samples, as the Python loop does. -/
def rebuildWavesGo (c1 c2 c3 c4 c5 c6 : ℚ) :
    ℚ → List ℚ → List ℚ × List ℚ × List ℚ × List ℚ × List ℚ × List ℚ
  | _, [] => ([], [], [], [], [], [])
  | prev, x :: xs =>
    let t := rebuildWavesGo c1 c2 c3 c4 c5 c6 x xs
    ((prev + c1 * (x - prev)) :: t.1,
     (prev + c2 * (x - prev)) :: t.2.1,
     (prev + c3 * (x - prev)) :: t.2.2.1,
     (prev + c4 * (x - prev)) :: t.2.2.2.1,
     (prev + c5 * (x - prev)) :: t.2.2.2.2.1,
     (prev + c6 * (x - prev)) :: t.2.2.2.2.2)

/-- Embedding of `rebuild_waves(samples, PHASECAL_1, ..., PHASECAL_6)`,
restricted to the six rebuilt waves `v_ct1 .. v_ct6` (the other dict
entries are passthroughs of the input samples). -/
def rebuild_waves (voltage_samples : List ℚ) (c1 c2 c3 c4 c5 c6 : ℚ) :
    Option (List ℚ × List ℚ × List ℚ × List ℚ × List ℚ × List ℚ) :=
  match voltage_samples with
  | [] => none
  | v0 :: rest =>
    let t := rebuildWavesGo c1 c2 c3 c4 c5 c6 v0 rest
    some (v0 :: t.1, v0 :: t.2.1, v0 :: t.2.2.1, v0 :: t.2.2.2.1,
          v0 :: t.2.2.2.2.1, v0 :: t.2.2.2.2.2)

theorem rebuildGo_eq_zipWith (c : ℚ) (prev : ℚ) (l : List ℚ) :
    rebuildGo c prev l =
      List.zipWith (fun p x => p + c * (x - p)) (prev :: l) l := by
  induction l generalizing prev with
  | nil => rfl
  | cons x xs ih => simp [rebuildGo, ih]

theorem rebuildGo_length (c : ℚ) (prev : ℚ) (l : List ℚ) :
    (rebuildGo c prev l).length = l.length := by
  induction l generalizing prev with
  | nil => rfl
  | cons x xs ih => simp [rebuildGo, ih]

/-- The six-wave loop is the single-wave loop run with each of the six
coefficients. -/
theorem rebuildWavesGo_eq (c1 c2 c3 c4 c5 c6 : ℚ) (prev : ℚ) (l : List ℚ) :
    rebuildWavesGo c1 c2 c3 c4 c5 c6 prev l =
      (rebuildGo c1 prev l, rebuildGo c2 prev l, rebuildGo c3 prev l,
       rebuildGo c4 prev l, rebuildGo c5 prev l, rebuildGo c6 prev l) := by
  induction l generalizing prev with
  | nil => rfl
  | cons x xs ih => simp [rebuildWavesGo, rebuildGo, ih]

theorem rebuildGo_one (prev : ℚ) (l : List ℚ) : rebuildGo 1 prev l = l := by
  induction l generalizing prev with
  | nil => rfl
  | cons x xs ih => simp [rebuildGo, ih]

/-- Pointwise law of the reconstructor loop: output `i` is computed from
raw sample `i-1` (the Python `previous_point`), not from output `i-1`. -/
theorem rebuildGo_getD (c : ℚ) (prev : ℚ) (l : List ℚ) (i : ℕ) (h : i < l.length) :
    (rebuildGo c prev l).getD i 0 =
      (prev :: l).getD i 0 + c * (l.getD i 0 - (prev :: l).getD i 0) := by
  induction l generalizing prev i with
  | nil => simp at h
  | cons x xs ih =>
    cases i with
    | zero => simp [rebuildGo]
    | succ j =>
      have hj : j < xs.length := by simpa using h
      simpa [rebuildGo] using ih x j hj

/-- The spec's claimed recurrence for the reconstructor, in which output
`i` is computed from output `i-1`.  Stated over `getD` so that it is
decidable on concrete lists. -/
def specRecurrence (V W : List ℚ) (c : ℚ) : Prop :=
  W.length = V.length ∧ W.getD 0 0 = V.getD 0 0 ∧
  ∀ i ∈ List.range V.length, 1 ≤ i →
    W.getD i 0 = W.getD (i-1) 0 + c * (V.getD i 0 - W.getD (i-1) 0)

instance (V W : List ℚ) (c : ℚ) : Decidable (specRecurrence V W c) := by
  unfold specRecurrence
  infer_instance

/-! ## Power/RMS Calculator

Embedding of `check_phasecal` (power_monitor.py lines 690-767) and
`calculate_power` (lines 138-412).  Both run one accumulation loop
`for i in range(0, num_samples)` over `int()`-truncated samples; in
`check_phasecal` `num_samples = len(rebuilt_wave)`, in `calculate_power`
`num_samples = len(v_samples_1)`.  An out-of-range access on a current
list raises `IndexError`; `num_samples == 0` makes the post-loop
averaging raise `ZeroDivisionError`.  Only the final per-channel
`real_power / apparent_power` division is guarded (`except
ZeroDivisionError: power_factor = 0`). -/

/-- Exceptions that can escape the calculator loops. -/
inductive CalcErr where
  | indexError : CalcErr
  | zeroDivision : CalcErr
deriving DecidableEq

/-- Running sums of one channel's accumulation loop: `sum_raw_current`,
`sum_raw_voltage`, `sum_inst_power`, `sum_squared_current`,
`sum_squared_voltage`. -/
structure ChanSums where
  sumI : ℤ
  sumV : ℤ
  sumIV : ℤ
  sumI2 : ℤ
  sumV2 : ℤ
deriving DecidableEq

/-- One channel's accumulation loop over the first `n` indices: reads
`ct[i]` and `v[i]` through `int()`, accumulating the five sums.  `none`
models the `IndexError` raised when a list is shorter than `n`. -/
def loopAccum (ct v : List ℚ) : ℕ → Option ChanSums
  | 0 => some ⟨0, 0, 0, 0, 0⟩
  | n + 1 =>
    match loopAccum ct v n, ct[n]?, v[n]? with
    | some s, some cq, some vq =>
      let c := pyInt cq
      let w := pyInt vq
      some ⟨s.sumI + c, s.sumV + w, s.sumIV + c * w, s.sumI2 + c * c, s.sumV2 + w * w⟩
    | _, _, _ => none

/-- Per-channel derived outputs: `power` stays an exact rational; the RMS
values and the power factor involve `math.sqrt` and live in `ℝ`. -/
structure PowerResult where
  power : ℚ
  current : ℝ
  voltage : ℝ
  pf : ℝ

/-- Post-loop per-channel computation shared by `check_phasecal` and
`calculate_power` (they differ only in the scaling factors supplied):
averages, real power, RMS values, apparent power, and the
`ZeroDivisionError`-guarded power factor. -/
noncomputable def finishChan (n : ℕ) (s : ChanSums) (ctScale vScale : ℚ) : PowerResult :=
  let nQ : ℚ := (n : ℚ)
  let avgI : ℚ := (s.sumI : ℚ) / nQ
  let avgV : ℚ := (s.sumV : ℚ) / nQ
  let power : ℚ := ((s.sumIV : ℚ) / nQ - avgI * avgV) * ctScale * vScale
  let msqI : ℚ := (s.sumI2 : ℚ) / nQ
  let msqV : ℚ := (s.sumV2 : ℚ) / nQ
  let rmsI : ℝ := Real.sqrt ((msqI - avgI * avgI : ℚ) : ℝ) * (ctScale : ℝ)
  let rmsV : ℝ := Real.sqrt ((msqV - avgV * avgV : ℚ) : ℝ) * (vScale : ℝ)
  let apparent : ℝ := rmsV * rmsI
  open Classical in
  let pf : ℝ := if apparent = 0 then 0 else (power : ℝ) / apparent
  ⟨power, rmsI, rmsV, pf⟩

/-- Loop-and-validation part of `check_phasecal(samples, rebuilt_wave,
board_voltage)`: `num_samples = len(rebuilt_wave)`; the loop indexes
`samples[i]` (possible `IndexError`), and `num_samples == 0` raises
`ZeroDivisionError` at the first post-loop average. -/
def check_phasecal_core (samples rebuilt_wave : List ℚ) : Except CalcErr (ℕ × ChanSums) :=
  match loopAccum samples rebuilt_wave rebuilt_wave.length with
  | none => .error .indexError
  | some s =>
    if rebuilt_wave.length = 0 then .error .zeroDivision
    else .ok (rebuilt_wave.length, s)

/-- Embedding of `check_phasecal(samples, rebuilt_wave, board_voltage)`:
scaling factors are `vref * 100` and `vref * 126.5` with
`vref = board_voltage / 1024` (the accuracy factors are commented out in
this trimmed-down calculator). -/
noncomputable def check_phasecal (samples rebuilt_wave : List ℚ) (board_voltage : ℚ) :
    Except CalcErr PowerResult :=
  let vref := board_voltage / 1024
  (check_phasecal_core samples rebuilt_wave).map fun p =>
    finishChan p.1 p.2 (vref * 100) (vref * (1265 / 10))

/-- Sample dictionary consumed by `calculate_power`: six current-sample
lists `ct1 .. ct6` and six phase-corrected voltage lists
`v_ct1 .. v_ct6`. -/
structure Samples6 where
  ct1 : List ℚ
  ct2 : List ℚ
  ct3 : List ℚ
  ct4 : List ℚ
  ct5 : List ℚ
  ct6 : List ℚ
  v1 : List ℚ
  v2 : List ℚ
  v3 : List ℚ
  v4 : List ℚ
  v5 : List ℚ
  v6 : List ℚ

/-- The `ACCURACY_CALIBRATION` configuration mapping consumed by
`calculate_power` (per-channel factors and the shared `AC` factor). -/
structure AccuracyCal where
  ct1 : ℚ
  ct2 : ℚ
  ct3 : ℚ
  ct4 : ℚ
  ct5 : ℚ
  ct6 : ℚ
  AC : ℚ

/-- All six channels' accumulated sums plus the shared `num_samples`. -/
structure AllSums where
  n : ℕ
  s1 : ChanSums
  s2 : ChanSums
  s3 : ChanSums
  s4 : ChanSums
  s5 : ChanSums
  s6 : ChanSums

/-- Loop-and-validation part of `calculate_power`:
`num_samples = len(v_samples_1)`; all twelve lists are indexed at
`0 .. num_samples)`, any short list raising `IndexError`, and
`num_samples == 0` raising `ZeroDivisionError` at the first average. -/
def calculate_power_core (s : Samples6) : Except CalcErr AllSums :=
  match loopAccum s.ct1 s.v1 s.v1.length, loopAccum s.ct2 s.v2 s.v1.length,
        loopAccum s.ct3 s.v3 s.v1.length, loopAccum s.ct4 s.v4 s.v1.length,
        loopAccum s.ct5 s.v5 s.v1.length, loopAccum s.ct6 s.v6 s.v1.length with
  | some a1, some a2, some a3, some a4, some a5, some a6 =>
    if s.v1.length = 0 then .error .zeroDivision
    else .ok ⟨s.v1.length, a1, a2, a3, a4, a5, a6⟩
  | _, _, _, _, _, _ => .error .indexError

/-- Result dictionary of `calculate_power`: one `PowerReading` per channel
plus the representative `voltage` entry, which the source sets to
`rms_voltage_1`. -/
structure Results6 where
  r1 : PowerResult
  r2 : PowerResult
  r3 : PowerResult
  r4 : PowerResult
  r5 : PowerResult
  r6 : PowerResult
  voltage : ℝ

/-- Embedding of `calculate_power(samples, board_voltage)` with the
monitor's configuration (`grid_voltage`,
`ac_transformer_output_voltage`, `accuracy_calibration`) passed
explicitly.  Scaling factors are `vref * 100 * accuracy[ct_k]` for the
channels and `vref * ((grid / transformer) * 11) * accuracy[AC]` for the
voltage, `vref = board_voltage / 1024`. -/
noncomputable def calculate_power (s : Samples6) (board_voltage grid_voltage transformer_voltage : ℚ)
    (ac : AccuracyCal) : Except CalcErr Results6 :=
  let vref := board_voltage / 1024
  let vScale := vref * ((grid_voltage / transformer_voltage) * 11) * ac.AC
  (calculate_power_core s).map fun a =>
    let r1 := finishChan a.n a.s1 (vref * 100 * ac.ct1) vScale
    let r2 := finishChan a.n a.s2 (vref * 100 * ac.ct2) vScale
    let r3 := finishChan a.n a.s3 (vref * 100 * ac.ct3) vScale
    let r4 := finishChan a.n a.s4 (vref * 100 * ac.ct4) vScale
    let r5 := finishChan a.n a.s5 (vref * 100 * ac.ct5) vScale
    let r6 := finishChan a.n a.s6 (vref * 100 * ac.ct6) vScale
    ⟨r1, r2, r3, r4, r5, r6, r1.voltage⟩

/-- Channel identifiers `ct1 .. ct6`. -/
inductive Ch where
  | c1 | c2 | c3 | c4 | c5 | c6
deriving DecidableEq

/-- Current-sample list of a channel. -/
def ctOf (s : Samples6) : Ch → List ℚ
  | .c1 => s.ct1
  | .c2 => s.ct2
  | .c3 => s.ct3
  | .c4 => s.ct4
  | .c5 => s.ct5
  | .c6 => s.ct6

/-- Phase-corrected voltage list of a channel. -/
def vOf (s : Samples6) : Ch → List ℚ
  | .c1 => s.v1
  | .c2 => s.v2
  | .c3 => s.v3
  | .c4 => s.v4
  | .c5 => s.v5
  | .c6 => s.v6

/-- Accuracy factor of a channel. -/
def acOf (ac : AccuracyCal) : Ch → ℚ
  | .c1 => ac.ct1
  | .c2 => ac.ct2
  | .c3 => ac.ct3
  | .c4 => ac.ct4
  | .c5 => ac.ct5
  | .c6 => ac.ct6

/-- Per-channel reading in the `calculate_power` result dictionary. -/
def chanResult (r : Results6) : Ch → PowerResult
  | .c1 => r.r1
  | .c2 => r.r2
  | .c3 => r.r3
  | .c4 => r.r4
  | .c5 => r.r5
  | .c6 => r.r6

/-- Decidable test for an `ok` calculator outcome. -/
def isOkE {ε α : Type} : Except ε α → Bool
  | .ok _ => true
  | .error _ => false

/-! ### Loop lemmas -/

/-- Closed form of the accumulation loop: when both lists are long enough
the five running sums are the list sums of the truncated prefixes. -/
theorem loopAccum_eq (ct v : List ℚ) (n : ℕ) (hc : n ≤ ct.length) (hv : n ≤ v.length) :
    loopAccum ct v n =
      some ⟨(((ct.take n).map fun q => pyInt q)).sum,
            (((v.take n).map fun q => pyInt q)).sum,
            (List.zipWith (fun a b => pyInt a * pyInt b) (ct.take n) (v.take n)).sum,
            (((ct.take n).map fun q => pyInt q * pyInt q)).sum,
            (((v.take n).map fun q => pyInt q * pyInt q)).sum⟩ := by
  induction n with
  | zero => simp [loopAccum]
  | succ m ih =>
    have hm : m < ct.length := lt_of_lt_of_le (Nat.lt_succ_self m) hc
    have hm2 : m < v.length := lt_of_lt_of_le (Nat.lt_succ_self m) hv
    have hct : ct[m]? = some ct[m] := List.getElem?_eq_getElem hm
    have hvv : v[m]? = some v[m] := List.getElem?_eq_getElem hm2
    have ht1 : ct.take (m + 1) = ct.take m ++ [ct[m]] := by
      rw [List.take_succ, hct]
      rfl
    have ht2 : v.take (m + 1) = v.take m ++ [v[m]] := by
      rw [List.take_succ, hvv]
      rfl
    have hlen : (ct.take m).length = (v.take m).length := by
      simp [List.length_take]
      omega
    rw [loopAccum, ih (le_of_lt hm) (le_of_lt hm2), hct, hvv]
    simp only [ht1, ht2, List.map_append, List.sum_append, List.zipWith_append _ _ _ _ _ hlen]
    simp [add_comm]

/-- The accumulation loop succeeds exactly when both lists cover the
requested index range. -/
theorem loopAccum_isSome_iff (ct v : List ℚ) (n : ℕ) :
    (loopAccum ct v n).isSome ↔ n ≤ ct.length ∧ n ≤ v.length := by
  induction n with
  | zero => simp [loopAccum]
  | succ m ih =>
    constructor
    · intro h
      rw [loopAccum] at h
      rcases h1 : loopAccum ct v m with _ | s <;> rcases h2 : ct[m]? with _ | c <;>
        rcases h3 : v[m]? with _ | w <;> simp [h1, h2, h3] at h
      have hmc := List.getElem?_eq_some_iff.mp h2
      have hmv := List.getElem?_eq_some_iff.mp h3
      exact ⟨hmc.1, hmv.1⟩
    · rintro ⟨hc, hv⟩
      rw [loopAccum_eq ct v (m + 1) hc hv]
      rfl

/-- The accumulation loop only depends on the `int()`-truncated values of
the entries it reads. -/
theorem loopAccum_congr (ct v ct2 v2 : List ℚ) (n : ℕ)
    (hc : ∀ i, i < n → (ct2[i]?).map pyInt = (ct[i]?).map pyInt)
    (hv : ∀ i, i < n → (v2[i]?).map pyInt = (v[i]?).map pyInt) :
    loopAccum ct2 v2 n = loopAccum ct v n := by
  induction n with
  | zero => rfl
  | succ m ih =>
    rw [loopAccum, loopAccum,
        ih (fun i hi => hc i (Nat.lt_succ_of_lt hi)) (fun i hi => hv i (Nat.lt_succ_of_lt hi))]
    have h1 := hc m (Nat.lt_succ_self m)
    have h2 := hv m (Nat.lt_succ_self m)
    rcases hL : loopAccum ct v m with _ | s
    · rcases ct2[m]? with _ | c2 <;> rcases v2[m]? with _ | w2 <;>
        rcases ct[m]? with _ | c <;> rcases v[m]? with _ | w <;> rfl
    · rcases h3 : ct[m]? with _ | c <;> rw [h3] at h1
      · have h5 : ct2[m]? = none := by
          rcases h5 : ct2[m]? with _ | c2
          · rfl
          · rw [h5] at h1
            simp at h1
        rw [h5]
      · rcases h5 : ct2[m]? with _ | c2 <;> rw [h5] at h1
        · simp at h1
        · simp only [Option.map] at h1
          have h1' : pyInt c2 = pyInt c := Option.some.inj h1
          rcases h4 : v[m]? with _ | w <;> rw [h4] at h2
          · have h6 : v2[m]? = none := by
              rcases h6 : v2[m]? with _ | w2
              · rfl
              · rw [h6] at h2
                simp at h2
            rw [h6]
          · rcases h6 : v2[m]? with _ | w2 <;> rw [h6] at h2
            · simp at h2
            · simp only [Option.map] at h2
              have h2' : pyInt w2 = pyInt w := Option.some.inj h2
              simp [h1', h2']

/-- The accumulation loop only reads the first `n` entries of the current
list. -/
theorem loopAccum_take (ct v : List ℚ) (n : ℕ) :
    loopAccum (ct.take n) v n = loopAccum ct v n := by
  refine loopAccum_congr ct v (ct.take n) v n (fun i hi => ?_) (fun i hi => rfl)
  rw [List.getElem?_take, if_pos hi]

/-- `int()` truncation is absorbed by the accumulation loop. -/
theorem loopAccum_map_pyTrunc (ct v : List ℚ) (n : ℕ) :
    loopAccum (ct.map pyTrunc) (v.map pyTrunc) n = loopAccum ct v n := by
  refine loopAccum_congr ct v (ct.map pyTrunc) (v.map pyTrunc) n (fun i hi => ?_) (fun i hi => ?_) <;>
  · rw [List.getElem?_map]
    rcases h : _[i]? with _ | q
    · rfl
    · simp [pyTrunc, pyInt_intCast]

/-! ### Closed forms of the calculator -/

/-- The five sums produced by a full pass over two equal-length lists. -/
def chanSumsOf (ct v : List ℚ) : ChanSums :=
  ⟨((ct.map fun q => pyInt q)).sum,
   ((v.map fun q => pyInt q)).sum,
   (List.zipWith (fun a b => pyInt a * pyInt b) ct v).sum,
   ((ct.map fun q => pyInt q * pyInt q)).sum,
   ((v.map fun q => pyInt q * pyInt q)).sum⟩

theorem loopAccum_full (ct v : List ℚ) (n : ℕ) (hc : ct.length = n) (hv : v.length = n) :
    loopAccum ct v n = some (chanSumsOf ct v) := by
  subst hc
  rw [loopAccum_eq ct v ct.length le_rfl (le_of_eq hv.symm), List.take_length,
      ← hv, List.take_length]
  rfl

theorem truncSum_cast (l : List ℚ) :
    (((l.map fun q => pyInt q).sum : ℤ) : ℚ) = (l.map pyTrunc).sum := by
  rw [Int.cast_list_sum, List.map_map]
  rfl

theorem truncProdSum_cast (s r : List ℚ) :
    (((List.zipWith (fun a b => pyInt a * pyInt b) s r).sum : ℤ) : ℚ) =
      (List.zipWith (fun a b => pyTrunc a * pyTrunc b) s r).sum := by
  rw [Int.cast_list_sum, List.map_zipWith]
  simp [pyTrunc]

theorem truncSqSum_cast (l : List ℚ) :
    (((l.map fun q => pyInt q * pyInt q).sum : ℤ) : ℚ) =
      (l.map fun q => pyTrunc q * pyTrunc q).sum := by
  rw [Int.cast_list_sum, List.map_map]
  refine congrArg List.sum (List.map_congr_left fun q hq => ?_)
  simp [Function.comp, pyTrunc]

theorem finishChan_power (n : ℕ) (S : ChanSums) (cS vS : ℚ) :
    (finishChan n S cS vS).power =
      ((S.sumIV : ℚ) / n - (S.sumI : ℚ) / n * ((S.sumV : ℚ) / n)) * cS * vS := rfl

/-- `check_phasecal` succeeds whenever the current list covers the
(nonempty) rebuilt wave, and its sums come from the truncated prefix of
the current list. -/
theorem check_phasecal_core_ok (samples rebuilt_wave : List ℚ)
    (h1 : rebuilt_wave.length ≤ samples.length) (h2 : rebuilt_wave ≠ []) :
    check_phasecal_core samples rebuilt_wave =
      .ok (rebuilt_wave.length, chanSumsOf (samples.take rebuilt_wave.length) rebuilt_wave) := by
  unfold check_phasecal_core
  rw [← loopAccum_take,
      loopAccum_full _ _ rebuilt_wave.length (by simp [List.length_take]; omega) rfl]
  simp [h2]

/-- The real-power output of `finishChan` over full-pass sums is the
mean-of-products minus product-of-means formula over the truncated
sample lists. -/
theorem finishChan_power_formula (ct v : List ℚ) (n : ℕ)
    (hc : ct.length = n) (hv : v.length = n) (cS vS : ℚ) :
    (finishChan n (chanSumsOf ct v) cS vS).power =
      (meanQ (List.zipWith (fun a b => pyTrunc a * pyTrunc b) ct v) -
       meanQ (ct.map pyTrunc) * meanQ (v.map pyTrunc)) * cS * vS := by
  rw [finishChan_power]
  unfold chanSumsOf meanQ
  simp only [truncSum_cast, truncProdSum_cast, List.length_map, List.length_zipWith, hc, hv,
    min_self]

/-- `calculate_power` succeeds on a batch of twelve equal-length nonempty
lists, with each channel's sums given by a full pass. -/
theorem calculate_power_core_ok (s : Samples6)
    (hlen : ∀ ch, (ctOf s ch).length = s.v1.length ∧ (vOf s ch).length = s.v1.length)
    (hne : s.v1 ≠ []) :
    calculate_power_core s =
      .ok ⟨s.v1.length,
           chanSumsOf s.ct1 s.v1, chanSumsOf s.ct2 s.v2, chanSumsOf s.ct3 s.v3,
           chanSumsOf s.ct4 s.v4, chanSumsOf s.ct5 s.v5, chanSumsOf s.ct6 s.v6⟩ := by
  unfold calculate_power_core
  rw [loopAccum_full s.ct1 s.v1 _ (hlen .c1).1 (hlen .c1).2,
      loopAccum_full s.ct2 s.v2 _ (hlen .c2).1 (hlen .c2).2,
      loopAccum_full s.ct3 s.v3 _ (hlen .c3).1 (hlen .c3).2,
      loopAccum_full s.ct4 s.v4 _ (hlen .c4).1 (hlen .c4).2,
      loopAccum_full s.ct5 s.v5 _ (hlen .c5).1 (hlen .c5).2,
      loopAccum_full s.ct6 s.v6 _ (hlen .c6).1 (hlen .c6).2]
  simp [hne]

theorem finishChan_current (n : ℕ) (S : ChanSums) (cS vS : ℚ) :
    (finishChan n S cS vS).current =
      Real.sqrt (((S.sumI2 : ℚ) / n - (S.sumI : ℚ) / n * ((S.sumI : ℚ) / n) : ℚ) : ℝ) *
        (cS : ℝ) := rfl

theorem finishChan_pf (n : ℕ) (S : ChanSums) (cS vS : ℚ) :
    (finishChan n S cS vS).pf =
      (if (finishChan n S cS vS).voltage * (finishChan n S cS vS).current = 0 then 0
       else ((finishChan n S cS vS).power : ℝ) /
              ((finishChan n S cS vS).voltage * (finishChan n S cS vS).current)) := rfl

/-- The `ZeroDivisionError` guard of the power factor: zero apparent
power yields power factor `0`. -/
theorem finishChan_pf_zero (n : ℕ) (S : ChanSums) (cS vS : ℚ)
    (h : (finishChan n S cS vS).voltage * (finishChan n S cS vS).current = 0) :
    (finishChan n S cS vS).pf = 0 := by
  rw [finishChan_pf, if_pos h]

theorem chanSumsOf_replicate (n : ℕ) (x y : ℚ) :
    chanSumsOf (List.replicate n x) (List.replicate n y) =
      ⟨n * pyInt x, n * pyInt y, n * (pyInt x * pyInt y),
       n * (pyInt x * pyInt x), n * (pyInt y * pyInt y)⟩ := by
  unfold chanSumsOf
  simp [List.map_replicate, List.zipWith_replicate, List.sum_replicate, nsmul_eq_mul]

/-- Flat (constant) sample lists have zero AC RMS, hence zero apparent
power and power factor `0`. -/
theorem finishChan_flat (n : ℕ) (hn : n ≠ 0) (x y cS vS : ℚ) :
    (finishChan n (chanSumsOf (List.replicate n x) (List.replicate n y)) cS vS).voltage *
      (finishChan n (chanSumsOf (List.replicate n x) (List.replicate n y)) cS vS).current = 0 ∧
    (finishChan n (chanSumsOf (List.replicate n x) (List.replicate n y)) cS vS).pf = 0 := by
  have hn' : (n : ℚ) ≠ 0 := Nat.cast_ne_zero.mpr hn
  have hq : ((n * (pyInt x * pyInt x) : ℤ) : ℚ) / n -
      ((n * pyInt x : ℤ) : ℚ) / n * (((n * pyInt x : ℤ) : ℚ) / n) = 0 := by
    push_cast
    field_simp
  have hcur :
      (finishChan n (chanSumsOf (List.replicate n x) (List.replicate n y)) cS vS).current = 0 := by
    rw [finishChan_current, chanSumsOf_replicate]
    show Real.sqrt ((((n * (pyInt x * pyInt x) : ℤ) : ℚ) / n -
        ((n * pyInt x : ℤ) : ℚ) / n * (((n * pyInt x : ℤ) : ℚ) / n) : ℚ) : ℝ) * (cS : ℝ) = 0
    rw [hq]
    simp
  have happ :
      (finishChan n (chanSumsOf (List.replicate n x) (List.replicate n y)) cS vS).voltage *
        (finishChan n (chanSumsOf (List.replicate n x) (List.replicate n y)) cS vS).current = 0 := by
    rw [hcur, mul_zero]
  exact ⟨happ, finishChan_pf_zero _ _ _ _ happ⟩

/-- Channel view of a successful `calculate_power`. -/
theorem calculate_power_chan (s : Samples6) (bv g t : ℚ) (ac : AccuracyCal)
    (hlen : ∀ ch, (ctOf s ch).length = s.v1.length ∧ (vOf s ch).length = s.v1.length)
    (hne : s.v1 ≠ []) (ch : Ch) :
    (calculate_power s bv g t ac).map (chanResult · ch) =
      .ok (finishChan s.v1.length (chanSumsOf (ctOf s ch) (vOf s ch))
            (bv / 1024 * 100 * acOf ac ch)
            (bv / 1024 * ((g / t) * 11) * ac.AC)) := by
  unfold calculate_power
  rw [calculate_power_core_ok s hlen hne]
  cases ch <;> rfl

/-- An empty shared voltage wave (`num_samples = len(v_samples_1) = 0`)
makes the post-loop averaging of `calculate_power` raise
`ZeroDivisionError`. -/
theorem calculate_power_empty (s : Samples6) (bv g t : ℚ) (ac : AccuracyCal)
    (hE : s.v1 = []) :
    calculate_power s bv g t ac = .error .zeroDivision := by
  unfold calculate_power calculate_power_core
  rw [hE]
  rfl

/-- Any of the twelve sample lists shorter than `len(v_samples_1)` makes
the accumulation loop of `calculate_power` raise `IndexError`. -/
theorem calculate_power_short (s : Samples6) (bv g t : ℚ) (ac : AccuracyCal) (ch : Ch)
    (h : (ctOf s ch).length < s.v1.length ∨ (vOf s ch).length < s.v1.length) :
    calculate_power s bv g t ac = .error .indexError := by
  have hnone : loopAccum (ctOf s ch) (vOf s ch) s.v1.length = none := by
    refine Option.not_isSome_iff_eq_none.mp ?_
    rw [loopAccum_isSome_iff]
    rintro ⟨hc, hv⟩
    rcases h with h | h <;> omega
  unfold calculate_power calculate_power_core
  cases ch <;> simp only [ctOf, vOf] at hnone <;> rw [hnone] <;>
    rcases loopAccum s.ct1 s.v1 s.v1.length with _ | a1 <;>
    rcases loopAccum s.ct2 s.v2 s.v1.length with _ | a2 <;>
    rcases loopAccum s.ct3 s.v3 s.v1.length with _ | a3 <;>
    rcases loopAccum s.ct4 s.v4 s.v1.length with _ | a4 <;>
    rcases loopAccum s.ct5 s.v5 s.v1.length with _ | a5 <;>
    rcases loopAccum s.ct6 s.v6 s.v1.length with _ | a6 <;> rfl

/-- Current lists longer than `len(v_samples_1)` are silently truncated
by `calculate_power`: the loop never reads past index
`num_samples - 1`, so the result is that of the prefix batch. -/
theorem calculate_power_truncation (s : Samples6) (bv g t : ℚ) (ac : AccuracyCal)
    (hv : ∀ ch, (vOf s ch).length = s.v1.length)
    (hc : ∀ ch, s.v1.length ≤ (ctOf s ch).length)
    (hne : s.v1 ≠ []) :
    isOkE (calculate_power s bv g t ac) = true ∧
    calculate_power s bv g t ac =
      calculate_power
        ⟨s.ct1.take s.v1.length, s.ct2.take s.v1.length, s.ct3.take s.v1.length,
         s.ct4.take s.v1.length, s.ct5.take s.v1.length, s.ct6.take s.v1.length,
         s.v1, s.v2, s.v3, s.v4, s.v5, s.v6⟩ bv g t ac := by
  have hne' : ¬ s.v1.length = 0 := by
    simpa [List.length_eq_zero] using hne
  have hex : ∀ ch, ∃ a, loopAccum (ctOf s ch) (vOf s ch) s.v1.length = some a := by
    intro ch
    exact Option.isSome_iff_exists.mp
      ((loopAccum_isSome_iff _ _ _).mpr ⟨hc ch, le_of_eq (hv ch).symm⟩)
  obtain ⟨a1, h1⟩ := hex .c1
  obtain ⟨a2, h2⟩ := hex .c2
  obtain ⟨a3, h3⟩ := hex .c3
  obtain ⟨a4, h4⟩ := hex .c4
  obtain ⟨a5, h5⟩ := hex .c5
  obtain ⟨a6, h6⟩ := hex .c6
  simp only [ctOf, vOf] at h1 h2 h3 h4 h5 h6
  have hcoreL : calculate_power_core s = .ok ⟨s.v1.length, a1, a2, a3, a4, a5, a6⟩ := by
    simp only [calculate_power_core, h1, h2, h3, h4, h5, h6]
    rw [if_neg hne']
  have hcoreR : calculate_power_core
      ⟨s.ct1.take s.v1.length, s.ct2.take s.v1.length, s.ct3.take s.v1.length,
       s.ct4.take s.v1.length, s.ct5.take s.v1.length, s.ct6.take s.v1.length,
       s.v1, s.v2, s.v3, s.v4, s.v5, s.v6⟩ = .ok ⟨s.v1.length, a1, a2, a3, a4, a5, a6⟩ := by
    simp only [calculate_power_core, loopAccum_take, h1, h2, h3, h4, h5, h6]
    rw [if_neg hne']
  constructor
  · unfold calculate_power
    rw [hcoreL]
    rfl
  · unfold calculate_power
    rw [hcoreL, hcoreR]

/-! ## Calibration Search Engine

Embedding of `find_phasecal(samples, ct_selection, accuracy_digits,
board_voltage)` (power_monitor.py lines 769-885).  Each iteration
re-acquires a fresh 2000-sample batch, rebuilds the wave with the
candidate coefficient and measures the power factor with
`check_phasecal`; that whole acquisition pipeline is abstracted by an
oracle `measure : ℕ → ℚ → ℚ` giving the power factor obtained at the
k-th acquisition using a given coefficient.  The initial power factor
(`rebuild_wave(..., 1.0)` on the samples passed in, lines 784-786) is
the `pf0` argument.

The Python local `new_phasecal` is unassigned until the first adaptive
step; reading it on the `round(pf, 4) == 1.0` success path of the very
first iteration raises `UnboundLocalError`, modelled as the `crash`
outcome (the whole `findPhasecal` call then returns `none`).  The
Python local `action` is always assigned earlier in the same iteration
than it is read, so it is a per-iteration value here; note the source
assigns `action = 'incremented' / 'decremented'` (lines 821, 827) but
compares `action == 'increment'` (lines 859, 873), which the embedding
reproduces literally. -/

/-- Loop-carried state of the adaptive walk, one field per Python local
of `find_phasecal` that survives an iteration.  `k` counts the
acquisitions consumed so far. -/
structure WalkState where
  pf : ℚ
  previous_pf : ℚ
  previous_phasecal : ℚ
  new_phasecal : Option ℚ
  increment : ℚ
  decrement : ℚ
  big_increment : ℚ
  big_decrement : ℚ
  trends : List ℚ
  k : ℕ
deriving DecidableEq

/-- Best (highest) power factor seen in a round and the coefficient that
was in use when it was measured (`best_pf` dict, lines 802-805). -/
structure RoundBest where
  pf : ℚ
  cal : ℚ
deriving DecidableEq

/-- Outcome of one pass of the inner `for _ in range(75)` body:
`crash` models the `UnboundLocalError` on `new_phasecal`, `brk` the
`break` on a 4-decimal-rounded power factor of 1.0, and `next` carries
the updated state, the updated best, and the `(coefficient used,
measured pf)` pair of this iteration's acquisition. -/
inductive IterStep where
  | crash : IterStep
  | brk : RoundBest → IterStep
  | next : WalkState → RoundBest → ℚ × ℚ → IterStep
deriving DecidableEq

/-- State update of one non-breaking pass of the inner loop body of
`find_phasecal` (lines 815-879), after the new coefficient `np` has
been chosen, the fresh power factor `pf2` measured and the trend window
extended to `trends2`: the trend-check block (lines 848-870, its
`continue` skipping the `previous_pf` update) against the plain path
(lines 872-879). -/
def stepState (s : WalkState) (act : String) (np pf2 : ℚ) (trends2 : List ℚ) : WalkState :=
  if trends2.length = 2 then
    if trends2.getD 0 0 < 0 ∧ trends2.getD 1 0 < 0 then
      let inc2 := 1 + |1 - s.increment| / 2
      let dec2 := s.decrement + (1 - s.decrement) / 2
      let np2 := if act == "increment" then np * dec2 else np * inc2
      ⟨pf2, s.previous_pf, np, some np2, inc2, dec2,
       s.big_increment, s.big_decrement, [], s.k + 1⟩
    else
      ⟨pf2, s.previous_pf, np, some np, s.increment, s.decrement,
       s.big_increment, s.big_decrement, [], s.k + 1⟩
  else
    ⟨pf2, pf2, np,
     some (if act == "increment" then np * s.increment else np * s.decrement),
     s.increment, s.decrement, s.big_increment, s.big_decrement, trends2, s.k + 1⟩

/-- The `action` string recorded by the adaptive step (lines 821, 827):
the source sets `'incremented'` / `'decremented'` here but later
compares against `'increment'`. -/
def chooseAct (pf : ℚ) : String :=
  if pf < 1 then "incremented" else "decremented"

/-- The next candidate coefficient (lines 815-826): a big step while the
power factor is not within 0.005 of 1.0 (i.e. `round(pf, 2) != 1.0`),
a fine step otherwise; increment below 1.0, decrement at or above. -/
def chooseNp (s : WalkState) : ℚ :=
  if s.pf < 1 then
    if pyRound2 s.pf ≠ 1 then s.previous_phasecal * s.big_increment
    else s.previous_phasecal * s.increment
  else
    if pyRound2 s.pf ≠ 1 then s.previous_phasecal * s.big_decrement
    else s.previous_phasecal * s.decrement

/-- One pass of the inner loop body of `find_phasecal`
(power_monitor.py lines 806-879). -/
def iterOnce (measure : ℕ → ℚ → ℚ) (s : WalkState) (best : RoundBest) : IterStep :=
  if pyRound4 s.pf = 1 then
    match s.new_phasecal with
    | none => .crash
    | some np => .brk ⟨s.pf, np⟩
  else
    .next (stepState s (chooseAct s.pf) (chooseNp s) (measure s.k (chooseNp s))
             (s.trends ++ [measure s.k (chooseNp s) - s.previous_pf]))
          (if measure s.k (chooseNp s) > best.pf
           then RoundBest.mk (measure s.k (chooseNp s)) (chooseNp s) else best)
          (chooseNp s, measure s.k (chooseNp s))

/-- Observable outcome of one round: final state, the round's `best_pf`,
the list of `(coefficient, pf)` measurements taken, and whether the
round ended through the `break`. -/
structure RoundOut where
  state : WalkState
  best : RoundBest
  trace : List (ℚ × ℚ)
  broke : Bool
deriving DecidableEq

/-- The inner `for _ in range(fuel)` loop of one round; `none` models the
`UnboundLocalError` escaping `find_phasecal`. -/
def runRound (measure : ℕ → ℚ → ℚ) : ℕ → WalkState → RoundBest → Option RoundOut
  | 0, s, b => some ⟨s, b, [], false⟩
  | fuel + 1, s, b =>
    match iterOnce measure s b with
    | .crash => none
    | .brk b2 => some ⟨s, b2, [], true⟩
    | .next s2 b2 m => (runRound measure fuel s2 b2).map fun out =>
        ⟨out.state, out.best, m :: out.trace, out.broke⟩

/-- The outer `for i, _ in enumerate(range(rounds))` loop: each round
restarts `best_pf` at `{'pf': 0, 'cal': 0}` and appends the round's best
to `best_pfs`; the walk state (including the shrunken step sizes) is
carried across rounds. -/
def runRounds (measure : ℕ → ℚ → ℚ) : ℕ → WalkState → Option (WalkState × List RoundBest)
  | 0, s => some (s, [])
  | r + 1, s =>
    match runRound measure 75 s ⟨0, 0⟩ with
    | none => none
    | some out =>
      (runRounds measure r out.state).map fun p => (p.1, out.best :: p.2)

/-- State at entry of the round loop (lines 790-799): `previous_phasecal
= 1.0`, `previous_pf = pf`, empty trend window, steps
`(1.005, 0.995)` and big steps `(1.01, 0.98)`, and `new_phasecal` not
yet bound. -/
def initialWalkState (pf0 : ℚ) : WalkState :=
  ⟨pf0, pf0, 1, none, 1005/1000, 995/1000, 101/100, 98/100, [], 0⟩

/-- Embedding of `find_phasecal`: three rounds of up to 75 iterations,
returning the list `best_pfs` of the three rounds' best entries, or
`none` for the `UnboundLocalError` escape. -/
def find_phasecal (measure : ℕ → ℚ → ℚ) (pf0 : ℚ) : Option (List RoundBest) :=
  (runRounds measure 3 (initialWalkState pf0)).map Prod.snd

/-- The recommended coefficient computed by `__main__` (line 1114):
`sum([x['cal'] for x in best_pfs]) / len([x['cal'] for x in best_pfs])`. -/
def avgPhasecal (best_pfs : List RoundBest) : ℚ :=
  (best_pfs.map RoundBest.cal).sum / (best_pfs.map RoundBest.cal).length

/-! ### Calibration loop lemmas -/

theorem stepState_new_phasecal_isSome (s : WalkState) (act : String) (np pf2 : ℚ)
    (trends2 : List ℚ) : (stepState s act np pf2 trends2).new_phasecal.isSome := by
  unfold stepState
  split_ifs <;> rfl

theorem iterOnce_crash_iff (measure : ℕ → ℚ → ℚ) (s : WalkState) (best : RoundBest) :
    iterOnce measure s best = .crash ↔ pyRound4 s.pf = 1 ∧ s.new_phasecal = none := by
  unfold iterOnce
  split_ifs with h
  · rcases hnp : s.new_phasecal with _ | np <;> simp [h]
  · simp [h]

theorem iterOnce_brk_of (measure : ℕ → ℚ → ℚ) (s : WalkState) (best : RoundBest) (np : ℚ)
    (h1 : pyRound4 s.pf = 1) (h2 : s.new_phasecal = some np) :
    iterOnce measure s best = .brk ⟨s.pf, np⟩ := by
  unfold iterOnce
  rw [if_pos h1, h2]

/-- Accumulator step of the `best_pf` tracking (lines 834-838). -/
def bestUpd (b : RoundBest) (m : ℚ × ℚ) : RoundBest :=
  if m.2 > b.pf then RoundBest.mk m.2 m.1 else b

theorem iterOnce_next_inv (measure : ℕ → ℚ → ℚ) (s : WalkState) (best : RoundBest)
    (s2 : WalkState) (b2 : RoundBest) (m : ℚ × ℚ)
    (h : iterOnce measure s best = .next s2 b2 m) :
    b2 = bestUpd best m ∧ s2.new_phasecal.isSome := by
  unfold iterOnce at h
  by_cases h1 : pyRound4 s.pf = 1
  · rw [if_pos h1] at h
    rcases hnp : s.new_phasecal with _ | np <;> rw [hnp] at h <;> simp at h
  · rw [if_neg h1] at h
    injection h with hs hb hm
    subst hs
    subst hb
    subst hm
    exact ⟨rfl, stepState_new_phasecal_isSome _ _ _ _ _⟩

theorem runRound_zero (measure : ℕ → ℚ → ℚ) (s : WalkState) (b : RoundBest) :
    runRound measure 0 s b = some ⟨s, b, [], false⟩ := rfl

theorem runRound_succ (measure : ℕ → ℚ → ℚ) (fuel : ℕ) (s : WalkState) (b : RoundBest) :
    runRound measure (fuel + 1) s b =
      (match iterOnce measure s b with
       | .crash => none
       | .brk b2 => some ⟨s, b2, [], true⟩
       | .next s2 b2 m => (runRound measure fuel s2 b2).map fun out =>
           ⟨out.state, out.best, m :: out.trace, out.broke⟩) := rfl

/-- A round cannot take more measurements than its fuel. -/
theorem runRound_trace_le (measure : ℕ → ℚ → ℚ) (fuel : ℕ) (s : WalkState) (b : RoundBest)
    (out : RoundOut) (h : runRound measure fuel s b = some out) :
    out.trace.length ≤ fuel := by
  induction fuel generalizing s b out with
  | zero =>
    rw [runRound_zero] at h
    cases h
    simp
  | succ fuel ih =>
    cases hit : iterOnce measure s b with
    | crash =>
      simp only [runRound_succ, hit] at h
      exact Option.noConfusion h
    | brk b2 =>
      simp only [runRound_succ, hit, Option.some.injEq] at h
      rw [← h]
      simp
    | next s2 b2 m =>
      simp only [runRound_succ, hit] at h
      rcases hrr : runRound measure fuel s2 b2 with _ | out2 <;> rw [hrr] at h
      · exact Option.noConfusion h
      · cases h
        have := ih s2 b2 out2 hrr
        simp
        omega

/-- If a round starts in a state that cannot crash (either the entry
power factor does not round to 1.0, or `new_phasecal` is already
bound), it completes, and it leaves the walk in a state that cannot
crash either. -/
theorem runRound_ok (measure : ℕ → ℚ → ℚ) (fuel : ℕ) (s : WalkState) (b : RoundBest)
    (h : pyRound4 s.pf ≠ 1 ∨ s.new_phasecal.isSome) :
    ∃ out, runRound measure fuel s b = some out ∧
      (pyRound4 out.state.pf ≠ 1 ∨ out.state.new_phasecal.isSome) := by
  induction fuel generalizing s b with
  | zero => exact ⟨⟨s, b, [], false⟩, runRound_zero measure s b, h⟩
  | succ fuel ih =>
    cases hit : iterOnce measure s b with
    | crash =>
      rcases (iterOnce_crash_iff measure s b).mp hit with ⟨h1, h2⟩
      rcases h with h | h
      · exact absurd h1 h
      · rw [h2] at h
        cases h
    | brk b2 => exact ⟨⟨s, b2, [], true⟩, by simp only [runRound_succ, hit], h⟩
    | next s2 b2 m =>
      obtain ⟨out2, hrr, hprop⟩ := ih s2 b2 (Or.inr (iterOnce_next_inv measure s b s2 b2 m hit).2)
      refine ⟨⟨out2.state, out2.best, m :: out2.trace, out2.broke⟩, ?_, hprop⟩
      simp only [runRound_succ, hit, hrr]
      rfl

/-- When a round does not break, its `best_pf` is the fold of the
update step over the measurements taken. -/
theorem runRound_best_eq_fold (measure : ℕ → ℚ → ℚ) (fuel : ℕ) (s : WalkState) (b : RoundBest)
    (out : RoundOut) (h : runRound measure fuel s b = some out) (hbk : out.broke = false) :
    out.best = out.trace.foldl bestUpd b := by
  induction fuel generalizing s b out with
  | zero =>
    rw [runRound_zero] at h
    cases h
    rfl
  | succ fuel ih =>
    cases hit : iterOnce measure s b with
    | crash =>
      simp only [runRound_succ, hit] at h
      exact Option.noConfusion h
    | brk b2 =>
      simp only [runRound_succ, hit, Option.some.injEq] at h
      rw [← h] at hbk
      cases hbk
    | next s2 b2 m =>
      simp only [runRound_succ, hit] at h
      rcases hrr : runRound measure fuel s2 b2 with _ | out2 <;> rw [hrr] at h
      · exact Option.noConfusion h
      · cases h
        have hb2 := (iterOnce_next_inv measure s b s2 b2 m hit).1
        have hfold := ih s2 b2 out2 hrr (by simpa using hbk)
        simp only [List.foldl_cons]
        rw [← hb2]
        exact hfold

theorem foldl_bestUpd_ge (tr : List (ℚ × ℚ)) (b : RoundBest) :
    b.pf ≤ (tr.foldl bestUpd b).pf ∧ ∀ m ∈ tr, m.2 ≤ (tr.foldl bestUpd b).pf := by
  induction tr generalizing b with
  | nil => simp
  | cons m tr ih =>
    have hstep : b.pf ≤ (bestUpd b m).pf ∧ m.2 ≤ (bestUpd b m).pf := by
      unfold bestUpd
      split_ifs with h
      · exact ⟨le_of_lt h, le_rfl⟩
      · exact ⟨le_rfl, not_lt.mp h⟩
    obtain ⟨ih1, ih2⟩ := ih (bestUpd b m)
    refine ⟨le_trans hstep.1 ih1, ?_⟩
    intro m2 hm2
    rcases List.mem_cons.mp hm2 with hm2 | hm2
    · subst hm2
      exact le_trans hstep.2 ih1
    · exact ih2 m2 hm2

theorem foldl_bestUpd_mem (tr : List (ℚ × ℚ)) (b : RoundBest) :
    tr.foldl bestUpd b = b ∨ ∃ m ∈ tr, tr.foldl bestUpd b = RoundBest.mk m.2 m.1 := by
  induction tr generalizing b with
  | nil => exact Or.inl rfl
  | cons m tr ih =>
    rcases ih (bestUpd b m) with h | ⟨m2, hm2, h⟩
    · simp only [List.foldl_cons]
      rw [h]
      unfold bestUpd
      split_ifs
      · exact Or.inr ⟨m, List.mem_cons_self m tr, rfl⟩
      · exact Or.inl rfl
    · exact Or.inr ⟨m2, List.mem_cons_of_mem m hm2, by simpa using h⟩

theorem runRounds_zero (measure : ℕ → ℚ → ℚ) (s : WalkState) :
    runRounds measure 0 s = some (s, []) := rfl

theorem runRounds_succ (measure : ℕ → ℚ → ℚ) (r : ℕ) (s : WalkState) :
    runRounds measure (r + 1) s =
      (match runRound measure 75 s ⟨0, 0⟩ with
       | none => none
       | some out => (runRounds measure r out.state).map fun p => (p.1, out.best :: p.2)) := rfl

/-- The outer loop completes `r` rounds from any non-crashing state. -/
theorem runRounds_ok (measure : ℕ → ℚ → ℚ) (r : ℕ) (s : WalkState)
    (h : pyRound4 s.pf ≠ 1 ∨ s.new_phasecal.isSome) :
    ∃ s2 bs, runRounds measure r s = some (s2, bs) ∧ bs.length = r := by
  induction r generalizing s with
  | zero => exact ⟨s, [], runRounds_zero measure s, rfl⟩
  | succ r ih =>
    obtain ⟨out, hrr, hprop⟩ := runRound_ok measure 75 s ⟨0, 0⟩ h
    obtain ⟨s2, bs, hrs, hlen⟩ := ih out.state hprop
    refine ⟨s2, out.best :: bs, ?_, by simp [hlen]⟩
    rw [runRounds_succ, hrr]
    show (runRounds measure r out.state).map _ = _
    rw [hrs]
    rfl

/-- If the very first power factor of the run rounds to 1.0 at four
decimals, the success path reads the still-unbound `new_phasecal` and
the whole call aborts. -/
theorem find_phasecal_crash (measure : ℕ → ℚ → ℚ) (pf0 : ℚ) (h : pyRound4 pf0 = 1) :
    find_phasecal measure pf0 = none := by
  have hcrash : iterOnce measure (initialWalkState pf0) ⟨0, 0⟩ = .crash :=
    (iterOnce_crash_iff measure (initialWalkState pf0) ⟨0, 0⟩).mpr ⟨h, rfl⟩
  have h75 : (75 : ℕ) = 74 + 1 := rfl
  have hr : runRound measure 75 (initialWalkState pf0) ⟨0, 0⟩ = none := by
    rw [h75, runRound_succ, hcrash]
  have h3 : (3 : ℕ) = 2 + 1 := rfl
  unfold find_phasecal
  rw [h3, runRounds_succ, hr]
  rfl

/-- If the very first power factor does not round to 1.0, the run
completes with exactly three rounds. -/
theorem find_phasecal_three_rounds (measure : ℕ → ℚ → ℚ) (pf0 : ℚ) (h : pyRound4 pf0 ≠ 1) :
    ∃ bs, find_phasecal measure pf0 = some bs ∧ bs.length = 3 := by
  obtain ⟨s2, bs, hrs, hlen⟩ := runRounds_ok measure 3 (initialWalkState pf0) (Or.inl h)
  exact ⟨bs, by rw [find_phasecal, hrs]; rfl, hlen⟩

/-! ## Phase-mode pre-flight orientation check

Embedding of the `phase`-mode block of `__main__`
(power_monitor.py lines 1079-1114).  The first orientation measurement
rebuilds the wave with `rpm.ct_phase_correction[ct_selection]` — the
channel's *configured* coefficient (line 1081); the re-check after the
operator reverses the CT uses the literal coefficient `1`
(line 1097).  A second negative power factor exits the process
(`sys.exit()`) before `find_phasecal` is ever called. -/

/-- The `CT_PHASE_CORRECTION` values shipped in `config.py`. -/
def CT_PHASE_CORRECTION : Ch → ℚ
  | .c1 => 103307871 / 100000000
  | .c2 => 106106079 / 100000000
  | .c3 => 116228187 / 100000000
  | .c4 => 137349277 / 100000000
  | .c5 => 104173608 / 100000000
  | .c6 => 15333161 / 10000000

/-- Outcome of the pre-flight orientation check: `fatalReversed` models
the `sys.exit()` after a second negative reading; otherwise the run
proceeds, remembering whether a reversal was signalled to the
operator. -/
inductive PreflightOutcome where
  | fatalReversed : PreflightOutcome
  | proceed : Bool → PreflightOutcome
deriving DecidableEq

/-- Pre-flight orientation check of `__main__` phase mode (lines
1079-1104): the first measurement uses the configured coefficient
`cfg`, the single re-check uses coefficient `1`. -/
def phasePreflight (cfg : ℚ) (measure : ℕ → ℚ → ℚ) : PreflightOutcome :=
  let pf := measure 0 cfg
  if pf < 0 then
    if measure 1 1 < 0 then .fatalReversed else .proceed true
  else .proceed false

/-- Modelled from the spec: the claimed pre-flight orientation check,
which "computes power factor at `c = 1.0`" for the initial measurement
as well (the source's re-check also uses `1`); used only to compare the
claimed behaviour with `phasePreflight`. -/
def claimedPreflight (measure : ℕ → ℚ → ℚ) : PreflightOutcome :=
  let pf := measure 0 1
  if pf < 0 then
    if measure 1 1 < 0 then .fatalReversed else .proceed true
  else .proceed false

/-- A whole `phase`-mode run for one channel: pre-flight check, then the
calibration search (lines 1106-1114).  `fatalReversed` never reaches
`find_phasecal`; `crashed` is the `UnboundLocalError` escape; otherwise
the run ends with the reversal flag and `best_pfs`. -/
inductive PhaseModeResult where
  | fatalReversed : PhaseModeResult
  | crashed : PhaseModeResult
  | calibrated : Bool → List RoundBest → PhaseModeResult
deriving DecidableEq

/-- Embedding of the `phase`-mode control flow of `__main__` for one
channel with configured coefficient `cfg`: acquisitions 0 and 1 belong
to the pre-flight check, acquisition 2 yields `find_phasecal`'s initial
power factor at coefficient `1.0` (line 784), and later acquisitions
drive the adaptive walk. -/
def phaseMode (cfg : ℚ) (measure : ℕ → ℚ → ℚ) : PhaseModeResult :=
  match phasePreflight cfg measure with
  | .fatalReversed => .fatalReversed
  | .proceed sig =>
    match find_phasecal (fun k c => measure (k + 3) c) (measure 2 1) with
    | none => .crashed
    | some best_pfs => .calibrated sig best_pfs

/-! ## Claim C1 -/

/-- C1, counterexample: on the input voltage sequence `[0, 4, 0]` with
coefficient `1/2`, `rebuild_wave` returns `[0, 2, 2]`, which does NOT
satisfy the claimed recurrence `V'[i] = V'[i-1] + c·(V[i] − V'[i-1])`
(that recurrence would give `V'[2] = 2 + 1/2·(0 − 2) = 1 ≠ 2`): the
loop feeds the previous *raw* sample back, not the previous output. -/
theorem rebuild_wave_not_spec_recurrence :
    rebuild_wave [0, 4, 0] (1/2) = some [0, 2, 2] ∧
    ¬ specRecurrence [0, 4, 0] [0, 2, 2] (1/2) := by
  constructor
  · show some _ = _
    norm_num [rebuildGo]
  · rintro ⟨-, -, h⟩
    have h2 := h 2 (by decide) (by decide)
    norm_num [List.getD] at h2

/-- C1, amended: for every voltage sequence `v0 :: rest` and coefficient
`c`, `rebuild_wave` returns a sequence of the same length with
`V'[0] = V[0]` and, for `i ≥ 1`, `V'[i] = V[i-1] + c·(V[i] − V[i-1])` —
each output depends on the prior *raw input* sample, not on the prior
output — and each of the six waves of `rebuild_waves` is exactly
`rebuild_wave` run with that channel's coefficient. -/
theorem rebuild_wave_prior_raw_recurrence :
    (∀ (c v0 : ℚ) (rest : List ℚ),
      ((rebuild_wave (v0 :: rest) c).getD []).length = rest.length + 1 ∧
      ((rebuild_wave (v0 :: rest) c).getD []).getD 0 0 = v0 ∧
      ∀ i, i < rest.length →
        ((rebuild_wave (v0 :: rest) c).getD []).getD (i + 1) 0 =
          (v0 :: rest).getD i 0 +
            c * ((v0 :: rest).getD (i + 1) 0 - (v0 :: rest).getD i 0)) ∧
    (∀ (v : List ℚ) (c1 c2 c3 c4 c5 c6 : ℚ),
      (rebuild_waves v c1 c2 c3 c4 c5 c6).map (·.1) = rebuild_wave v c1 ∧
      (rebuild_waves v c1 c2 c3 c4 c5 c6).map (·.2.1) = rebuild_wave v c2 ∧
      (rebuild_waves v c1 c2 c3 c4 c5 c6).map (·.2.2.1) = rebuild_wave v c3 ∧
      (rebuild_waves v c1 c2 c3 c4 c5 c6).map (·.2.2.2.1) = rebuild_wave v c4 ∧
      (rebuild_waves v c1 c2 c3 c4 c5 c6).map (·.2.2.2.2.1) = rebuild_wave v c5 ∧
      (rebuild_waves v c1 c2 c3 c4 c5 c6).map (·.2.2.2.2.2) = rebuild_wave v c6) := by
  constructor
  · intro c v0 rest
    refine ⟨?_, rfl, ?_⟩
    · simp [rebuild_wave, rebuildGo_length]
    · intro i hi
      have h := rebuildGo_getD c v0 rest i hi
      simpa [rebuild_wave] using h
  · intro v c1 c2 c3 c4 c5 c6
    cases v with
    | nil => exact ⟨rfl, rfl, rfl, rfl, rfl, rfl⟩
    | cons v0 rest =>
      simp [rebuild_waves, rebuild_wave, rebuildWavesGo_eq]

/-- C1, witness: the actual recurrence instantiated at the sequence
`[0, 4, 0]`, coefficient `1/2`, index 2. -/
theorem rebuild_wave_prior_raw_recurrence_witness :
    ((rebuild_wave [0, 4, 0] (1/2)).getD []).getD 2 0 =
      ([0, 4, 0] : List ℚ).getD 1 0 +
        (1/2) * (([0, 4, 0] : List ℚ).getD 2 0 - ([0, 4, 0] : List ℚ).getD 1 0) :=
  (rebuild_wave_prior_raw_recurrence.1 (1/2) 0 [4, 0]).2.2 1 (by decide)

/-! ## Claim C8 -/

/-- C8: the reconstructor with coefficient `c = 1.0` is the identity on
every input sequence of length > 1, both for `rebuild_wave` and for all
six waves of `rebuild_waves`. -/
theorem rebuild_wave_one_identity (v : List ℚ) (h : 1 < v.length) :
    rebuild_wave v 1 = some v ∧
    rebuild_waves v 1 1 1 1 1 1 = some (v, v, v, v, v, v) := by
  cases v with
  | nil => simp at h
  | cons v0 rest =>
    constructor
    · simp [rebuild_wave, rebuildGo_one]
    · simp [rebuild_waves, rebuildWavesGo_eq, rebuildGo_one]

/-- C8, witness: the identity at the concrete sequence `[5, 9, 7]`. -/
theorem rebuild_wave_one_identity_witness :
    rebuild_wave [5, 9, 7] 1 = some [5, 9, 7] ∧
    rebuild_waves [5, 9, 7] 1 1 1 1 1 1 =
      some ([5, 9, 7], [5, 9, 7], [5, 9, 7], [5, 9, 7], [5, 9, 7], [5, 9, 7]) :=
  rebuild_wave_one_identity [5, 9, 7] (by decide)

/-! ## Claim C2 -/

/-- C2: on every matched nonempty batch, the calculator's real power is
`(mean(current·voltage) − mean_current · mean_voltage) · current_scale ·
voltage_scale` over the `int()`-truncated samples — for `check_phasecal`
(scales `vref·100` and `vref·126.5`) and for every channel of
`calculate_power` (scales `vref·100·accuracy[ct]` and
`vref·(grid/transformer·11)·accuracy[AC]`); and on the anchor batch
`I = V' = [10, 20, 30, 40]` the unscaled intermediate
`mean(I·V) − mean_I · mean_V` is exactly `750 − 625 = 125`. -/
theorem real_power_is_bias_corrected_mean_product :
    (∀ (samples rebuilt_wave : List ℚ) (bv : ℚ),
      samples.length = rebuilt_wave.length → rebuilt_wave ≠ [] →
      (check_phasecal samples rebuilt_wave bv).map PowerResult.power =
        .ok ((meanQ (List.zipWith (fun a b => pyTrunc a * pyTrunc b) samples rebuilt_wave) -
              meanQ (samples.map pyTrunc) * meanQ (rebuilt_wave.map pyTrunc)) *
             (bv / 1024 * 100) * (bv / 1024 * (1265 / 10)))) ∧
    (∀ (ch : Ch) (s : Samples6) (bv g t : ℚ) (ac : AccuracyCal),
      (∀ ch2, (ctOf s ch2).length = s.v1.length ∧ (vOf s ch2).length = s.v1.length) →
      s.v1 ≠ [] →
      (calculate_power s bv g t ac).map (fun r => (chanResult r ch).power) =
        .ok ((meanQ (List.zipWith (fun a b => pyTrunc a * pyTrunc b) (ctOf s ch) (vOf s ch)) -
              meanQ ((ctOf s ch).map pyTrunc) * meanQ ((vOf s ch).map pyTrunc)) *
             (bv / 1024 * 100 * acOf ac ch) * (bv / 1024 * ((g / t) * 11) * ac.AC))) ∧
    ((check_phasecal_core [10, 20, 30, 40] [10, 20, 30, 40]).map
        (fun p => (p.2.sumIV : ℚ) / p.1 - (p.2.sumI : ℚ) / p.1 * ((p.2.sumV : ℚ) / p.1)) =
      .ok 125) := by
  refine ⟨?_, ?_, ?_⟩
  · intro samples rebuilt_wave bv h1 h2
    unfold check_phasecal
    rw [check_phasecal_core_ok samples rebuilt_wave (le_of_eq h1.symm) h2]
    show Except.ok _ = Except.ok _
    congr 1
    rw [show samples.take rebuilt_wave.length = samples from by rw [← h1, List.take_length]]
    exact finishChan_power_formula samples rebuilt_wave rebuilt_wave.length h1 rfl _ _
  · intro ch s bv g t ac hlen hne
    have h := calculate_power_chan s bv g t ac hlen hne ch
    rcases hcp : calculate_power s bv g t ac with e | r
    · rw [hcp] at h
      simp [Except.map] at h
    · rw [hcp] at h
      simp only [Except.map] at h ⊢
      have hr := Except.ok.inj h
      rw [hr]
      exact congrArg Except.ok (finishChan_power_formula _ _ _ (hlen ch).1 (hlen ch).2 _ _)
  · rw [show check_phasecal_core [10, 20, 30, 40] [10, 20, 30, 40] =
          .ok (4, ⟨100, 100, 3000, 3000, 3000⟩) from by
        rw [check_phasecal_core, show ([10, 20, 30, 40] : List ℚ).length = 4 from rfl,
            loopAccum_eq _ _ 4 (by norm_num) (by norm_num)]
        norm_num [pyInt]]
    show Except.ok _ = Except.ok _
    norm_num

/-- C2, witness: the formula instantiated on the anchor batch with board
voltage `33/10`. -/
theorem real_power_is_bias_corrected_mean_product_witness :
    ([10, 20, 30, 40] : List ℚ).length = ([10, 20, 30, 40] : List ℚ).length ∧
    ([10, 20, 30, 40] : List ℚ) ≠ [] ∧
    (check_phasecal [10, 20, 30, 40] [10, 20, 30, 40] (33/10)).map PowerResult.power =
      .ok ((meanQ (List.zipWith (fun a b => pyTrunc a * pyTrunc b)
                    [10, 20, 30, 40] [10, 20, 30, 40]) -
            meanQ (([10, 20, 30, 40] : List ℚ).map pyTrunc) *
              meanQ (([10, 20, 30, 40] : List ℚ).map pyTrunc)) *
           ((33/10) / 1024 * 100) * ((33/10) / 1024 * (1265 / 10))) :=
  ⟨rfl, by decide,
   real_power_is_bias_corrected_mean_product.1 [10, 20, 30, 40] [10, 20, 30, 40] (33/10)
     rfl (by decide)⟩

/-! ## Claim C3 -/

/-- C3: whenever a channel's apparent power (`rms_voltage · rms_current`)
is zero, the power factor is returned as exactly `0` and the calculator
still returns a result (the `ZeroDivisionError` is caught); in
particular flat (constant) current and voltage sequences yield power
factor `0`, for `check_phasecal` and for every channel of
`calculate_power`. -/
theorem power_factor_zero_on_flat_signal :
    (∀ (samples rebuilt_wave : List ℚ) (bv : ℚ) (r : PowerResult),
      check_phasecal samples rebuilt_wave bv = .ok r →
      r.voltage * r.current = 0 → r.pf = 0) ∧
    (∀ (n : ℕ) (x y bv : ℚ), n ≠ 0 →
      (check_phasecal (List.replicate n x) (List.replicate n y) bv).map PowerResult.pf =
        .ok 0) ∧
    (∀ (n : ℕ) (bv g t : ℚ) (ac : AccuracyCal)
       (x1 x2 x3 x4 x5 x6 y1 y2 y3 y4 y5 y6 : ℚ) (ch : Ch), n ≠ 0 →
      (calculate_power
          ⟨List.replicate n x1, List.replicate n x2, List.replicate n x3,
           List.replicate n x4, List.replicate n x5, List.replicate n x6,
           List.replicate n y1, List.replicate n y2, List.replicate n y3,
           List.replicate n y4, List.replicate n y5, List.replicate n y6⟩ bv g t ac).map
        (fun r => (chanResult r ch).pf) = .ok 0) := by
  refine ⟨?_, ?_, ?_⟩
  · intro samples rebuilt_wave bv r h happ
    unfold check_phasecal at h
    rcases hc : check_phasecal_core samples rebuilt_wave with e | p
    · rw [hc] at h
      simp [Except.map] at h
    · rw [hc] at h
      simp only [Except.map] at h
      have hr := Except.ok.inj h
      rw [← hr] at happ ⊢
      exact finishChan_pf_zero _ _ _ _ happ
  · intro n x y bv hn
    have hne : (List.replicate n y) ≠ [] := by
      intro hE
      exact hn (by simpa using congrArg List.length hE)
    have hlen : (List.replicate n y).length ≤ (List.replicate n x).length := by simp
    unfold check_phasecal
    rw [check_phasecal_core_ok _ _ hlen hne]
    simp only [Except.map, List.length_replicate, List.take_replicate, min_self]
    exact congrArg Except.ok ((finishChan_flat n hn x y _ _).2)
  · intro n bv g t ac x1 x2 x3 x4 x5 x6 y1 y2 y3 y4 y5 y6 ch hn
    have hne : (List.replicate n y1) ≠ [] := by
      intro hE
      exact hn (by simpa using congrArg List.length hE)
    have hlen : ∀ ch2,
        (ctOf ⟨List.replicate n x1, List.replicate n x2, List.replicate n x3,
               List.replicate n x4, List.replicate n x5, List.replicate n x6,
               List.replicate n y1, List.replicate n y2, List.replicate n y3,
               List.replicate n y4, List.replicate n y5, List.replicate n y6⟩ ch2).length =
          (List.replicate n y1).length ∧
        (vOf ⟨List.replicate n x1, List.replicate n x2, List.replicate n x3,
              List.replicate n x4, List.replicate n x5, List.replicate n x6,
              List.replicate n y1, List.replicate n y2, List.replicate n y3,
              List.replicate n y4, List.replicate n y5, List.replicate n y6⟩ ch2).length =
          (List.replicate n y1).length := by
      intro ch2
      cases ch2 <;> simp [ctOf, vOf]
    have h := calculate_power_chan _ bv g t ac hlen hne ch
    rcases hcp : calculate_power _ bv g t ac with e | r
    · rw [hcp] at h
      simp [Except.map] at h
    · rw [hcp] at h
      simp only [Except.map] at h ⊢
      have hr := Except.ok.inj h
      rw [hr]
      cases ch <;>
        simp only [ctOf, vOf, List.length_replicate] <;>
        exact congrArg Except.ok ((finishChan_flat n hn _ _ _ _).2)

/-- C3, witness: flat batches of three samples each, current `4` and
voltage `6`, at board voltage `33/10`. -/
theorem power_factor_zero_on_flat_signal_witness :
    (3 : ℕ) ≠ 0 ∧
    (check_phasecal (List.replicate 3 4) (List.replicate 3 6) (33/10)).map PowerResult.pf =
      .ok 0 :=
  ⟨by decide, power_factor_zero_on_flat_signal.2.1 3 4 6 (33/10) (by decide)⟩

/-! ## Claim C7 -/

/-- C7, counterexample: a current list strictly longer than the (rebuilt
or shared) voltage wave does NOT abort the calculator; the extra
current samples are silently ignored, the result being that of the
truncated batch — for `check_phasecal` on `samples = [10, 20, 30]`,
`rebuilt_wave = [10, 20]`, and for `calculate_power` on a batch whose
`ct1` is `[10, 20, 30]` while all other lists are `[10, 20]`. -/
theorem calculator_silently_truncates :
    isOkE (check_phasecal [10, 20, 30] [10, 20] (33/10)) = true ∧
    check_phasecal [10, 20, 30] [10, 20] (33/10) =
      check_phasecal [10, 20] [10, 20] (33/10) ∧
    isOkE (calculate_power
        ⟨[10, 20, 30], [10, 20], [10, 20], [10, 20], [10, 20], [10, 20],
         [10, 20], [10, 20], [10, 20], [10, 20], [10, 20], [10, 20]⟩
        (33/10) 240 24 ⟨1, 1, 1, 1, 1, 1, 1⟩) = true ∧
    calculate_power
        ⟨[10, 20, 30], [10, 20], [10, 20], [10, 20], [10, 20], [10, 20],
         [10, 20], [10, 20], [10, 20], [10, 20], [10, 20], [10, 20]⟩
        (33/10) 240 24 ⟨1, 1, 1, 1, 1, 1, 1⟩ =
      calculate_power
        ⟨[10, 20], [10, 20], [10, 20], [10, 20], [10, 20], [10, 20],
         [10, 20], [10, 20], [10, 20], [10, 20], [10, 20], [10, 20]⟩
        (33/10) 240 24 ⟨1, 1, 1, 1, 1, 1, 1⟩ := by
  have h1 := check_phasecal_core_ok [10, 20, 30] [10, 20] (by decide) (by decide)
  have h2 := check_phasecal_core_ok [10, 20] [10, 20] (by decide) (by decide)
  have htr := calculate_power_truncation
    ⟨[10, 20, 30], [10, 20], [10, 20], [10, 20], [10, 20], [10, 20],
     [10, 20], [10, 20], [10, 20], [10, 20], [10, 20], [10, 20]⟩
    (33/10) 240 24 ⟨1, 1, 1, 1, 1, 1, 1⟩
    (fun ch => by cases ch <;> rfl) (fun ch => by cases ch <;> decide) (by decide)
  refine ⟨?_, ?_, htr.1, htr.2⟩
  · unfold check_phasecal
    rw [h1]
    rfl
  · unfold check_phasecal
    rw [h1, h2]
    rfl

/-- C7, amended: each calculator iterates over its voltage reference
length `N` (`len(rebuilt_wave)` in `check_phasecal`,
`len(v_samples_1)` in `calculate_power`): it aborts with
`ZeroDivisionError` when `N = 0` and with `IndexError` when a current
(or, in `calculate_power`, any per-channel voltage) list is shorter
than `N`; but a current list longer than `N` is silently truncated to
its first `N` samples and a result is produced. -/
theorem calculator_length_contract :
    (∀ (samples rebuilt_wave : List ℚ) (bv : ℚ),
      (rebuilt_wave = [] → check_phasecal samples rebuilt_wave bv = .error .zeroDivision) ∧
      (samples.length < rebuilt_wave.length →
        check_phasecal samples rebuilt_wave bv = .error .indexError) ∧
      (rebuilt_wave.length ≤ samples.length → rebuilt_wave ≠ [] →
        isOkE (check_phasecal samples rebuilt_wave bv) = true ∧
        check_phasecal samples rebuilt_wave bv =
          check_phasecal (samples.take rebuilt_wave.length) rebuilt_wave bv)) ∧
    (∀ (s : Samples6) (bv g t : ℚ) (ac : AccuracyCal),
      (s.v1 = [] → calculate_power s bv g t ac = .error .zeroDivision) ∧
      (∀ ch, ((ctOf s ch).length < s.v1.length ∨ (vOf s ch).length < s.v1.length) →
        calculate_power s bv g t ac = .error .indexError) ∧
      ((∀ ch, (vOf s ch).length = s.v1.length) → (∀ ch, s.v1.length ≤ (ctOf s ch).length) →
        s.v1 ≠ [] →
        isOkE (calculate_power s bv g t ac) = true ∧
        calculate_power s bv g t ac =
          calculate_power
            ⟨s.ct1.take s.v1.length, s.ct2.take s.v1.length, s.ct3.take s.v1.length,
             s.ct4.take s.v1.length, s.ct5.take s.v1.length, s.ct6.take s.v1.length,
             s.v1, s.v2, s.v3, s.v4, s.v5, s.v6⟩ bv g t ac)) := by
  constructor
  · intro samples rebuilt_wave bv
    refine ⟨?_, ?_, ?_⟩
    · intro hE
      subst hE
      rfl
    · intro hlt
      have hnone : loopAccum samples rebuilt_wave rebuilt_wave.length = none := by
        refine Option.not_isSome_iff_eq_none.mp ?_
        rw [loopAccum_isSome_iff]
        intro hcontra
        exact absurd hcontra.1 (by omega)
      unfold check_phasecal check_phasecal_core
      rw [hnone]
      rfl
    · intro hle hne
      have h1 := check_phasecal_core_ok samples rebuilt_wave hle hne
      have htk : (samples.take rebuilt_wave.length).length = rebuilt_wave.length := by
        simp [List.length_take, min_eq_left hle]
      have h2 := check_phasecal_core_ok (samples.take rebuilt_wave.length) rebuilt_wave
        (le_of_eq htk.symm) hne
      refine ⟨?_, ?_⟩
      · unfold check_phasecal
        rw [h1]
        rfl
      · unfold check_phasecal
        rw [h1, h2, List.take_take, min_self]
  · intro s bv g t ac
    exact ⟨calculate_power_empty s bv g t ac,
           fun ch h => calculate_power_short s bv g t ac ch h,
           fun hv hc hne => calculate_power_truncation s bv g t ac hv hc hne⟩

/-- C7, witness: the amended contract instantiated at
`samples = [7, 8, 9, 10]`, `rebuilt_wave = [7, 8]` for
`check_phasecal`, and at a batch whose `ct1 = [7, 8, 9]` with all
other lists `[7, 8]` for `calculate_power`. -/
theorem calculator_length_contract_witness :
    ([7, 8] : List ℚ).length ≤ ([7, 8, 9, 10] : List ℚ).length ∧
    (isOkE (check_phasecal [7, 8, 9, 10] [7, 8] 3) = true ∧
     check_phasecal [7, 8, 9, 10] [7, 8] 3 =
       check_phasecal (List.take ([7, 8] : List ℚ).length [7, 8, 9, 10]) [7, 8] 3) ∧
    (isOkE (calculate_power
        ⟨[7, 8, 9], [7, 8], [7, 8], [7, 8], [7, 8], [7, 8],
         [7, 8], [7, 8], [7, 8], [7, 8], [7, 8], [7, 8]⟩ 3 240 24 ⟨1, 1, 1, 1, 1, 1, 1⟩) = true ∧
     calculate_power
        ⟨[7, 8, 9], [7, 8], [7, 8], [7, 8], [7, 8], [7, 8],
         [7, 8], [7, 8], [7, 8], [7, 8], [7, 8], [7, 8]⟩ 3 240 24 ⟨1, 1, 1, 1, 1, 1, 1⟩ =
       calculate_power
        ⟨List.take ([7, 8] : List ℚ).length [7, 8, 9], [7, 8], [7, 8], [7, 8], [7, 8], [7, 8],
         [7, 8], [7, 8], [7, 8], [7, 8], [7, 8], [7, 8]⟩ 3 240 24 ⟨1, 1, 1, 1, 1, 1, 1⟩) :=
  ⟨by decide,
   (calculator_length_contract.1 [7, 8, 9, 10] [7, 8] 3).2.2 (by decide) (by decide),
   (calculator_length_contract.2
      ⟨[7, 8, 9], [7, 8], [7, 8], [7, 8], [7, 8], [7, 8],
       [7, 8], [7, 8], [7, 8], [7, 8], [7, 8], [7, 8]⟩ 3 240 24 ⟨1, 1, 1, 1, 1, 1, 1⟩).2.2
     (fun ch => by cases ch <;> rfl) (fun ch => by cases ch <;> decide) (by decide)⟩

/-! ## Claim C9 -/

/-- C9: the calculator truncates every sample (current and reconstructed
voltage alike) through `int()` before accumulation, so its entire
result — real power, RMS values and power factor — is unchanged when
every input sample is replaced by its integer truncation: the
fractional part produced by phase correction never influences the
result.  Holds for `check_phasecal` and for `calculate_power`. -/
theorem calculator_ignores_fractional_parts :
    (∀ (samples rebuilt_wave : List ℚ) (bv : ℚ),
      check_phasecal (samples.map pyTrunc) (rebuilt_wave.map pyTrunc) bv =
        check_phasecal samples rebuilt_wave bv) ∧
    (∀ (s : Samples6) (bv g t : ℚ) (ac : AccuracyCal),
      calculate_power
          ⟨s.ct1.map pyTrunc, s.ct2.map pyTrunc, s.ct3.map pyTrunc,
           s.ct4.map pyTrunc, s.ct5.map pyTrunc, s.ct6.map pyTrunc,
           s.v1.map pyTrunc, s.v2.map pyTrunc, s.v3.map pyTrunc,
           s.v4.map pyTrunc, s.v5.map pyTrunc, s.v6.map pyTrunc⟩ bv g t ac =
        calculate_power s bv g t ac) := by
  constructor
  · intro samples rebuilt_wave bv
    unfold check_phasecal
    have hcore : check_phasecal_core (samples.map pyTrunc) (rebuilt_wave.map pyTrunc) =
        check_phasecal_core samples rebuilt_wave := by
      unfold check_phasecal_core
      rw [List.length_map, loopAccum_map_pyTrunc]
    rw [hcore]
  · intro s bv g t ac
    unfold calculate_power
    have hcore : calculate_power_core
        ⟨s.ct1.map pyTrunc, s.ct2.map pyTrunc, s.ct3.map pyTrunc,
         s.ct4.map pyTrunc, s.ct5.map pyTrunc, s.ct6.map pyTrunc,
         s.v1.map pyTrunc, s.v2.map pyTrunc, s.v3.map pyTrunc,
         s.v4.map pyTrunc, s.v5.map pyTrunc, s.v6.map pyTrunc⟩ =
        calculate_power_core s := by
      unfold calculate_power_core
      simp only [List.length_map, loopAccum_map_pyTrunc]
    rw [hcore]

/-! ## Claim C4 -/

/-- C4, counterexample: the pre-flight orientation check does NOT use
coefficient `1.0` for its initial measurement — it uses the channel's
configured `CT_PHASE_CORRECTION` value (1.03307871 for ct1, which is
not 1).  Against an oracle whose power factor is `1` at coefficient `1`
and `-1` at any other coefficient, the code signals a reversal while
the claimed check (initial measurement at `c = 1.0`) would not. -/
theorem preflight_not_at_coefficient_one :
    phasePreflight (CT_PHASE_CORRECTION Ch.c1) (fun _ c => if c = 1 then 1 else -1) =
      .proceed true ∧
    claimedPreflight (fun _ c => if c = 1 then 1 else -1) = .proceed false ∧
    CT_PHASE_CORRECTION Ch.c1 ≠ 1 := by
  refine ⟨?_, ?_, ?_⟩
  · unfold phasePreflight CT_PHASE_CORRECTION
    norm_num
  · unfold claimedPreflight
    norm_num
  · unfold CT_PHASE_CORRECTION
    norm_num

/-- C4, amended: the pre-flight orientation check measures first with
the channel's configured coefficient and re-checks once with
coefficient `1`; a negative first reading signals a reversed sensor, a
second negative reading ends the whole phase-mode run fatally before
the adaptive search (`find_phasecal`) is reached. -/
theorem preflight_reversal_contract (cfg : ℚ) (measure : ℕ → ℚ → ℚ) :
    (phasePreflight cfg measure = .fatalReversed ↔
      measure 0 cfg < 0 ∧ measure 1 1 < 0) ∧
    (phaseMode cfg measure = .fatalReversed ↔
      measure 0 cfg < 0 ∧ measure 1 1 < 0) ∧
    (∀ (sig : Bool) (best_pfs : List RoundBest),
      phaseMode cfg measure = .calibrated sig best_pfs →
      (sig = true ↔ measure 0 cfg < 0)) := by
  unfold phaseMode phasePreflight
  by_cases h0 : measure 0 cfg < 0
  · rw [if_pos h0]
    by_cases h1 : measure 1 1 < 0
    · rw [if_pos h1]
      refine ⟨by simp [h0, h1], by simp [h0, h1], ?_⟩
      intro sig bs hcal
      cases hcal
    · rw [if_neg h1]
      refine ⟨by simp [h1], ?_, ?_⟩
      · rcases hfp : find_phasecal (fun k c => measure (k + 3) c) (measure 2 1) with _ | bs <;>
          simp [hfp, h1]
      · intro sig bs hcal
        rcases hfp : find_phasecal (fun k c => measure (k + 3) c) (measure 2 1) with _ | bs2 <;>
          rw [hfp] at hcal
        · cases hcal
        · simp only [] at hcal
          injection hcal with hsig hbs
          simp [← hsig, h0]
  · rw [if_neg h0]
    refine ⟨by simp [h0], ?_, ?_⟩
    · rcases hfp : find_phasecal (fun k c => measure (k + 3) c) (measure 2 1) with _ | bs <;>
        simp [hfp, h0]
    · intro sig bs hcal
      rcases hfp : find_phasecal (fun k c => measure (k + 3) c) (measure 2 1) with _ | bs2 <;>
        rw [hfp] at hcal
      · cases hcal
      · simp only [] at hcal
        injection hcal with hsig hbs
        simp [← hsig, h0]

/-- C4, witness: two negative readings end the phase-mode run with the
fatal reversed-sensor exit. -/
theorem preflight_reversal_contract_witness :
    phaseMode (CT_PHASE_CORRECTION Ch.c1) (fun _ _ => -1) = .fatalReversed :=
  (preflight_reversal_contract (CT_PHASE_CORRECTION Ch.c1) (fun _ _ => -1)).2.1.mpr
    ⟨by norm_num, by norm_num⟩

/-! ## Claim C5 -/

/-- C5: evaluation of the oscillation damper at a failing input.  The
walk is at `previous_phasecal = 1.1` with one trend entry `-0.01`
recorded, the fresh measurement returns power factor `0.9` (below the
previous `0.95`), so the trend window fills with two negative deltas
and the damper fires with last action `'incremented'`.  The fine steps
are correctly halved toward 1.0 (increment `1.005 → 1.0025 = 401/400`,
decrement `0.995 → 0.9975 = 399/400`) and `previous_pf` keeps `0.95`,
but the corrective probe multiplies the new coefficient `1.111` by the
halved INCREMENT `401/400`, not by the claimed opposite action's
halved decrement `399/400`: the source compares
`action == 'increment'` while `action` always holds `'incremented'` or
`'decremented'`, so the comparison is never true and the `else` branch
(increment) is always taken, contradicting the code's own comment
("If the previous phasecal was incremented, then we will decrement"). -/
theorem damper_probe_repeats_increment :
    iterOnce (fun _ _ => 9/10)
        ⟨9/10, 95/100, 11/10, some (11/10), 1005/1000, 995/1000, 101/100, 98/100, [-1/100], 5⟩
        ⟨0, 0⟩ =
      .next ⟨9/10, 95/100, 1111/1000, some (1111/1000 * (401/400)), 401/400, 399/400,
             101/100, 98/100, [], 6⟩
            ⟨9/10, 1111/1000⟩ (1111/1000, 9/10) ∧
    (1111/1000 : ℚ) * (401/400) ≠ 1111/1000 * (399/400) ∧
    chooseAct (9/10) = "incremented" ∧
    (("incremented" == "increment") : Bool) = false := by
  have h4 : pyRound4 (9/10 : ℚ) = 9/10 := by
    rw [pyRound4_eval (9/10) 9000 (by norm_num)]
    norm_num
  have h2 : pyRound2 (9/10 : ℚ) = 9/10 := by
    rw [pyRound2_eval (9/10) 90 (by norm_num)]
    norm_num
  have habs : |(1 : ℚ)/200| = 1/200 := abs_of_pos (by norm_num)
  refine ⟨?_, by norm_num, ?_, by decide⟩
  · simp only [iterOnce, chooseNp, chooseAct, stepState, h4, h2]
    norm_num
    rw [if_neg (by decide : ¬("incremented" = "increment"))]
    norm_num [habs]
  · unfold chooseAct
    norm_num

/-! ## Claim C6 -/

/-- C6, counterexample: a calibration run whose very first power factor
measurement rounds to 1.0 at four decimals does not consist of three
rounds at all — `find_phasecal` aborts before completing a single
round (the unbound `new_phasecal` read), so there are no three best
coefficients to average. -/
theorem calibration_run_can_abort_before_any_round :
    find_phasecal (fun _ _ => 1/2) 1 = none :=
  find_phasecal_crash (fun _ _ => 1/2) 1 pyRound4_one

/-- C6, amended: provided the initial power factor measurement does not
itself round to 1.0 at four decimal places, a calibration run consists
of exactly 3 rounds; each round takes at most 75 measurements; a round
entered with a power factor rounding to 1.0 (and a bound coefficient)
terminates immediately with that reading; a round that never breaks
keeps the numerically highest power factor seen and the coefficient
that produced it; and the recommended coefficient is the arithmetic
mean of the three rounds' best coefficients. -/
theorem calibration_three_rounds_structure :
    (∀ (measure : ℕ → ℚ → ℚ) (pf0 : ℚ), pyRound4 pf0 ≠ 1 →
      ∃ bs, find_phasecal measure pf0 = some bs ∧ bs.length = 3) ∧
    (∀ (measure : ℕ → ℚ → ℚ) (s : WalkState) (b : RoundBest) (out : RoundOut),
      runRound measure 75 s b = some out → out.trace.length ≤ 75) ∧
    (∀ (measure : ℕ → ℚ → ℚ) (s : WalkState) (b : RoundBest) (np : ℚ),
      pyRound4 s.pf = 1 → s.new_phasecal = some np →
      runRound measure 75 s b = some ⟨s, ⟨s.pf, np⟩, [], true⟩) ∧
    (∀ (measure : ℕ → ℚ → ℚ) (s : WalkState) (b : RoundBest) (out : RoundOut),
      runRound measure 75 s b = some out → out.broke = false →
      (b.pf ≤ out.best.pf ∧ ∀ m ∈ out.trace, m.2 ≤ out.best.pf) ∧
      (out.best = b ∨ ∃ m ∈ out.trace, out.best = RoundBest.mk m.2 m.1)) ∧
    (∀ b1 b2 b3 : RoundBest, avgPhasecal [b1, b2, b3] = (b1.cal + b2.cal + b3.cal) / 3) := by
  refine ⟨find_phasecal_three_rounds, fun measure s b out h => runRound_trace_le _ _ _ _ _ h,
    ?_, ?_, ?_⟩
  · intro measure s b np h1 h2
    rw [show (75 : ℕ) = 74 + 1 from rfl, runRound_succ, iterOnce_brk_of measure s b np h1 h2]
  · intro measure s b out h hbk
    have hfold := runRound_best_eq_fold measure 75 s b out h hbk
    have hge := foldl_bestUpd_ge out.trace b
    have hmem := foldl_bestUpd_mem out.trace b
    rw [← hfold] at hge hmem
    exact ⟨hge, hmem⟩
  · intro b1 b2 b3
    unfold avgPhasecal
    norm_num
    ring

/-- C6, witness: under an oracle that always measures power factor `0`
(which never rounds to 1.0), a run returns exactly three round
results. -/
theorem calibration_three_rounds_structure_witness :
    pyRound4 (0 : ℚ) ≠ 1 ∧
    ∃ bs, find_phasecal (fun _ _ => 0) 0 = some bs ∧ bs.length = 3 := by
  have h : pyRound4 (0 : ℚ) ≠ 1 := by
    rw [pyRound4_zero]
    norm_num
  exact ⟨h, calibration_three_rounds_structure.1 (fun _ _ => 0) 0 h⟩

/-! ## Claim C10 -/

/-- C10: if the very first power-factor measurement of a calibration run
already rounds to 1.0 at 4 decimal places, the success path of round 1,
iteration 1 reads the not-yet-bound local `new_phasecal` and
`find_phasecal` aborts with the unbound-variable error (modelled by
`none`) instead of reporting success. -/
theorem find_phasecal_unbound_on_initial_success (measure : ℕ → ℚ → ℚ) (pf0 : ℚ)
    (h : pyRound4 pf0 = 1) : find_phasecal measure pf0 = none :=
  find_phasecal_crash measure pf0 h

/-- C10, witness: the crash at the concrete initial power factor `1`. -/
theorem find_phasecal_unbound_on_initial_success_witness :
    find_phasecal (fun _ _ => 0) 1 = none :=
  find_phasecal_unbound_on_initial_success (fun _ _ => 0) 1 pyRound4_one

end PowerMonitor
